import Mathlib

/-
  Verification development for prawtools (subreddit_stats.py).

  The program is shallowly embedded below. Timestamps (Python floats such as
  created_utc, min_date, max_date and the marker value) are modelled as
  rationals; Python integers as Int/Nat; text as String or List Char.
  External reddit objects (submissions, comments) are modelled as records of
  the fields the program reads. The process-aborting paths (sys.exit in
  _previous_max, the assert in fetch_recent_submissions) are modelled with
  Except.
-/

set_option maxRecDepth 40000

namespace SubredditStats

/-- Global constant DAYS_IN_SECONDS = 60 * 60 * 24 (a Python int). -/
def DAYS_IN_SECONDS : ℤ := 60 * 60 * 24

/-- Global constant MAX_BODY_SIZE = 10000. -/
def MAX_BODY_SIZE : ℕ := 10000

/-- The fixed class attribute modelling the title tag "Subreddit Stats:"
    that marks reports published by the program itself. -/
def postTitleTag : String := "Subreddit Stats:"

/-- The literal label scanned for by re_marker, the compiled pattern
    "SRS Marker: " followed by a digit group. -/
def markerLabel : List Char := String.toList "SRS Marker: "

/-- The fixed generated-with text that post_footer starts with. -/
def footerGenerated : List Char :=
  String.toList ">Generated with [BBoe](/user/bboe)\x27s [Subreddit Stats](https://github.com/bboe/subreddit_stats)  \n"

/-- Models str.startswith on the embedded strings. -/
def startsWith (pre s : String) : Bool := pre.toList.isPrefixOf s.toList

/-! ### The marker pattern: re.findall of "SRS Marker: (\d+)" -/

/-- Greedy maximal run of decimal digits at the front of the text, together
    with the remainder: the digit group of the marker pattern. -/
def takeDigits : List Char → List Char × List Char
  | [] => ([], [])
  | c :: cs =>
    if c.isDigit then
      let p := takeDigits cs
      (c :: p.1, p.2)
    else ([], c :: cs)

/-- Numeric value of one digit character. -/
def digitVal (c : Char) : ℕ := c.toNat - 48

/-- Numeric value of a big-endian digit string, the value Python reads back
    from the captured group. -/
def digitsVal (ds : List Char) : ℕ := ds.foldl (fun a c => 10 * a + digitVal c) 0

/-- Strip the literal label from the front of the text if it is present. -/
def stripLabel : List Char → List Char → Option (List Char)
  | [], s => some s
  | _ :: _, [] => none
  | p :: ps, c :: cs => if c = p then stripLabel ps cs else none

/-- One left-to-right, non-overlapping scan of the text collecting every
    match value of the marker pattern, exactly as re.findall does: at each
    position try the literal label followed by a nonempty greedy digit run;
    on a match continue after it, otherwise advance one character. The fuel
    argument (instantiated with the text length) only forces termination. -/
def findallAux : ℕ → List Char → List ℕ
  | 0, _ => []
  | _ + 1, [] => []
  | fuel + 1, c :: cs =>
    match stripLabel markerLabel (c :: cs) with
    | some rest =>
      match takeDigits rest with
      | ([], _) => findallAux fuel cs
      | (d :: ds, rest2) => digitsVal (d :: ds) :: findallAux fuel rest2
    | none => findallAux fuel cs

/-- re_marker.findall applied to a text. -/
def findall (s : List Char) : List ℕ := findallAux s.length s

/-- Embeds a natural number as the rational that float() of its digit string
    yields. -/
def natToRat (n : ℕ) : ℚ := Rat.ofInt (Int.ofNat n)

/-- SubRedditStats._previous_max: the last match of the marker pattern in the
    selftext of a submission, as a float; none models the "End marker not
    found" branch, which terminates the process via sys.exit(1). -/
def previousMax (selftext : List Char) : Option ℚ :=
  ((findall selftext).getLast?).map natToRat

/-- Exact subtraction of rationals, written out on numerators and
    denominators so that concrete instances evaluate inside the kernel; it
    models float subtraction and is proved equal to the ring subtraction in
    fSub_eq below. -/
def fSub (a b : ℚ) : ℚ := mkRat (a.num * b.den - b.num * a.den) (a.den * b.den)

/-! ### Decimal rendering: the %d conversion used by post_footer -/

/-- One decimal digit as a character. -/
def digitChar (d : ℕ) : Char :=
  match d with
  | 0 => '0' | 1 => '1' | 2 => '2' | 3 => '3' | 4 => '4'
  | 5 => '5' | 6 => '6' | 7 => '7' | 8 => '8' | _ => '9'

/-- Big-endian decimal digits of a positive natural number; the fuel
    (instantiated with the number itself) only forces termination. -/
def natDigitsAux : ℕ → ℕ → List Char
  | 0, _ => []
  | _ + 1, 0 => []
  | fuel + 1, n => natDigitsAux fuel (n / 10) ++ [digitChar (n % 10)]

/-- Decimal rendering of a natural number, as %d prints it. -/
def natDigits (n : ℕ) : List Char := if n = 0 then ['0'] else natDigitsAux n n

/-- Python int() truncation toward zero of a rational: what the %d conversion
    applies to a float before printing. -/
def pyTrunc (q : ℚ) : ℤ := if 0 ≤ q then ⌊q⌋ else ⌈q⌉

/-- The %d rendering of a float value. -/
def pyFormatD (q : ℚ) : List Char :=
  if pyTrunc q < 0 then '-' :: natDigits (pyTrunc q).natAbs
  else natDigits (pyTrunc q).toNat

/-- The body text produced by post_footer % (prev, max_date): the fixed
    generated-with line, the optional previous-stat link text, and the
    trailing marker "SRS Marker: %d" rendered from max_date. -/
def renderFooter (prev : List Char) (max_date : ℚ) : List Char :=
  footerGenerated ++ prev ++ markerLabel ++ pyFormatD max_date

/-! ### Submissions and the window-selection state -/

/-- The fields of a reddit submission object that the program reads. The
    author field holds str(submission.author). -/
structure Submission where
  created_utc : ℚ
  author : String
  title : String
  selftext : List Char
  permalink : String
  url : String
  score : ℤ
  ups : ℤ
  downs : ℤ
  num_comments : ℕ
deriving DecidableEq

/-- The mutable instance state that fetch_recent_submissions and prev_stat
    read and write: min_date, max_date, prev_srs and the submissions list. -/
structure SRState where
  min_date : ℚ
  max_date : ℚ
  prev_srs : Option String
  submissions : List Submission
deriving DecidableEq

/-- The state set up by the constructor: min_date = 0,
    max_date = time.time() - DAYS_IN_SECONDS * 3, prev_srs = None and an
    empty submissions list, where now stands for time.time(). -/
def initState (now : ℚ) : SRState :=
  { min_date := 0
    max_date := fSub now (Rat.ofInt (DAYS_IN_SECONDS * 3))
    prev_srs := none
    submissions := [] }

/-- The run configuration fetch_recent_submissions consults:
    str(self.reddit.user) and the since_last keyword argument (True at the
    only call site). -/
structure FetchCfg where
  user : String
  since_last : Bool
deriving DecidableEq

/-- The two ways the program dies inside the scan: sys.exit(1) from
    _previous_max when no marker is found, and the AssertionError from
    assert(self.prev_srs is None). -/
inductive AbortKind where
  | markerMissing
  | assertFailed
deriving DecidableEq

instance exceptDecEq {ε α : Type} [DecidableEq ε] [DecidableEq α] :
    DecidableEq (Except ε α)
  | .error e, .error f =>
    if h : e = f then isTrue (congrArg Except.error h)
    else isFalse fun hh => h (Except.error.inj hh)
  | .error _, .ok _ => isFalse Except.noConfusion
  | .ok _, .error _ => isFalse Except.noConfusion
  | .ok x, .ok y =>
    if h : x = y then isTrue (congrArg Except.ok h)
    else isFalse fun hh => h (Except.ok.inj hh)

/-- prev_stat: fetch the submission at prev_url (passed here as the already
    fetched object), set min_date to its extracted marker and remember the
    url. A missing marker terminates the process. -/
def prev_stat (st : SRState) (prev_url : String) (fetched : Submission) :
    Except AbortKind SRState :=
  match previousMax fetched.selftext with
  | none => .error .markerMissing
  | some m => .ok { st with min_date := m, prev_srs := some prev_url }

/-- The test "authored by the reporting user and titled with the fixed tag"
    from the self-report branch of the scan loop. -/
def isSelfReport (user : String) (s : Submission) : Bool :=
  decide (s.author = user) && startsWith postTitleTag s.title

/-- Result of one iteration of the scan loop: keep scanning with a new
    state, break out of the loop, or die. -/
inductive StepResult where
  | cont (st : SRState)
  | stop
  | fail (e : AbortKind)
deriving DecidableEq

/-- The body of the for-loop of fetch_recent_submissions, for one streamed
    submission: skip items newer than max_date; break at the first item at
    or below min_date; divert a self-report (when since_last holds) into a
    min_date raise plus prev_srs bookkeeping, dying on a missing marker or on
    an already-set prev_srs; append everything else to submissions. -/
def scanStep (cfg : FetchCfg) (st : SRState) (s : Submission) : StepResult :=
  if st.max_date < s.created_utc then .cont st
  else if s.created_utc ≤ st.min_date then .stop
  else if cfg.since_last && isSelfReport cfg.user s then
    match previousMax s.selftext with
    | none => .fail .markerMissing
    | some m =>
      let st1 := { st with min_date := max st.min_date m }
      if st1.prev_srs.isSome then .fail .assertFailed
      else .cont { st1 with prev_srs := some s.permalink }
  else .cont { st with submissions := st.submissions ++ [s] }

/-- The scan loop over the reverse-chronological stream of submissions. -/
def scanLoop (cfg : FetchCfg) (st : SRState) : List Submission → Except AbortKind SRState
  | [] => .ok st
  | s :: rest =>
    match scanStep cfg st s with
    | .cont st1 => scanLoop cfg st1 rest
    | .stop => .ok st
    | .fail e => .error e

/-- The ascending stable sort by created_utc used on line 104:
    self.submissions.sort(key=lambda x: x.created_utc). -/
def sortByCreated (l : List Submission) : List Submission :=
  List.insertionSort (fun a b => a.created_utc ≤ b.created_utc) l

/-- The pre-scan overwrite at the top of fetch_recent_submissions: when
    max_duration is nonzero (Python truthiness of the int), min_date is
    assigned max_date - DAYS_IN_SECONDS * max_duration, an int product
    subtracted from a float. -/
def preScanState (st0 : SRState) (maxDuration : ℤ) : SRState :=
  if maxDuration ≠ 0
  then { st0 with min_date := fSub st0.max_date (Rat.ofInt (DAYS_IN_SECONDS * maxDuration)) }
  else st0

/-- The tail of fetch_recent_submissions after the scan: return False on an
    empty submissions list; otherwise sort the kept submissions ascending by
    created_utc, reset min_date to the first and max_date to the last kept
    timestamp, and return True. -/
def finishFetch (st2 : SRState) : Bool × SRState :=
  if st2.submissions = [] then (false, st2)
  else
    (true,
      { st2 with
        submissions := sortByCreated st2.submissions
        min_date := ((sortByCreated st2.submissions).head?.map
          Submission.created_utc).getD st2.min_date
        max_date := ((sortByCreated st2.submissions).getLast?.map
          Submission.created_utc).getD st2.max_date })

/-- fetch_recent_submissions: apply the pre-scan min_date overwrite, run the
    scan loop over the stream, then recompute the window from the kept batch;
    the returned Bool is the returned True/False of the source. -/
def fetchRecent (cfg : FetchCfg) (maxDuration : ℤ) (st0 : SRState)
    (stream : List Submission) : Except AbortKind (Bool × SRState) :=
  match scanLoop cfg (preScanState st0 maxDuration) stream with
  | .error e => .error e
  | .ok st2 => .ok (finishFetch st2)

/-! ### Ranking: top_submitters and top_commenters

The submitters and commenters defaultdicts are modelled as association
lists, one entry per author holding the items collected for that author.
process_submitters below builds the mapping content: per-author value lists
are Python lists, so they carry the items in append (encounter) order.
The entry order is different: top_submitters and top_commenters iterate
dict.items(), and the Python 2 runtime enumerates dict entries in an
unspecified hash order, not in first-encounter order; the ranking
functions therefore take the enumeration as an argument, and
process_submitters fixes only its content up to permutation, listing the
entries in the canonical first-encounter order. Python sorted with
reverse=True is a stable sort that, for records with equal keys, keeps the
enumeration order; List.insertionSort with the reversed lexicographic
tuple comparison below has exactly that behaviour. -/

/-- One step of the grouping loop of process_submitters: append the
    submission to the value list of its author, creating the entry on first
    encounter (the defaultdict insertion). -/
def addToGroup (l : List (String × List Submission)) (key : String)
    (s : Submission) : List (String × List Submission) :=
  match l with
  | [] => [(key, [s])]
  | (k, v) :: rest =>
    if k = key then (k, v ++ [s]) :: rest else (k, v) :: addToGroup rest key s

/-- process_submitters: group the kept submissions by str(author). The
    result presents the mapping content in canonical first-encounter order;
    the entry order dict.items() actually yields at run time is any
    permutation of these entries. -/
def process_submitters (subs : List Submission) :
    List (String × List Submission) :=
  subs.foldl (fun acc s => addToGroup acc s.author s) []

/-- Total submission score of one author entry:
    sum(y.score for y in x[1]). -/
def subScore (e : String × List Submission) : ℤ := (e.2.map Submission.score).sum

/-- The sort key tuple of top_submitters:
    (sum(y.score for y in x[1]), len(x[1])). -/
def subKey (e : String × List Submission) : ℤ × ℕ := (subScore e, e.2.length)

/-- The comparison realised by sorted(..., reverse=True, key=subKey):
    a may precede b exactly when the key of a is lexicographically at least
    the key of b. -/
def subRel (a b : String × List Submission) : Prop :=
  (subKey b).1 < (subKey a).1 ∨ ((subKey a).1 = (subKey b).1 ∧ (subKey b).2 ≤ (subKey a).2)

instance : DecidableRel subRel := fun a b => by unfold subRel; infer_instance

/-- The full descending ranking of author entries computed inside
    top_submitters before the [:num] truncation. -/
def rankedSubmitters (items : List (String × List Submission)) :
    List (String × List Submission) :=
  List.insertionSort subRel items

/-- top_submitters as a list: the ranking truncated to
    min(num, len(self.submitters)) entries. -/
def top_submitters (num : ℕ) (items : List (String × List Submission)) :
    List (String × List Submission) :=
  (rankedSubmitters items).take (min num items.length)

/-- The fields of a reddit comment object the program reads; author holds
    str(comment.author). -/
structure RComment where
  author : String
  ups : ℤ
  downs : ℤ
  permalink : String
deriving DecidableEq

/-- The local score lambda of top_commenters: x.ups - x.downs. -/
def commentScore (c : RComment) : ℤ := c.ups - c.downs

/-- Total comment score of one author entry:
    sum(score(y) for y in x[1]). -/
def commScore (e : String × List RComment) : ℤ := (e.2.map commentScore).sum

/-- The sort key tuple of top_commenters. -/
def commKey (e : String × List RComment) : ℤ × ℕ := (commScore e, e.2.length)

/-- The comparison realised by sorted(..., reverse=True) in top_commenters. -/
def commRel (a b : String × List RComment) : Prop :=
  (commKey b).1 < (commKey a).1 ∨ ((commKey a).1 = (commKey b).1 ∧ (commKey b).2 ≤ (commKey a).2)

instance : DecidableRel commRel := fun a b => by unfold commRel; infer_instance

/-- The full descending ranking computed inside top_commenters. -/
def rankedCommenters (items : List (String × List RComment)) :
    List (String × List RComment) :=
  List.insertionSort commRel items

/-- top_commenters as a list: the ranking truncated to
    min(num, len(self.commenters)) entries. -/
def top_commenters (num : ℕ) (items : List (String × List RComment)) :
    List (String × List RComment) :=
  (rankedCommenters items).take (min num items.length)

/-! ### process_commenters: collecting the flattened reply lists -/

/-- One entry of a flattened comment listing: either a well-formed Comment
    object or a MoreComments placeholder (anything failing the
    isinstance(x, Comment) test). -/
inductive CEntry where
  | comment (c : RComment)
  | morePlaceholder
deriving DecidableEq

/-- The isinstance(x, Comment) test. -/
def isComment : CEntry → Bool
  | .comment _ => true
  | .morePlaceholder => false

/-- The per-submission comment data process_commenters consults:
    all_comments_flat either yields the fully expanded flat list or raises
    ClientException (the error case), and comments_flat is the locally
    available listing that may still contain placeholders. -/
structure CSubmission where
  num_comments : ℕ
  all_comments_flat : Except Unit (List CEntry)
  comments_flat : List CEntry

/-- The comments contributed by one submission: the full flat list when the
    fetch succeeds; on ClientException, the locally available entries
    filtered to well-formed Comment instances. -/
def submissionComments (s : CSubmission) : List CEntry :=
  match s.all_comments_flat with
  | .ok l => l
  | .error _ => s.comments_flat.filter isComment

/-- The comment-collection loop of process_commenters: submissions with
    num_comments == 0 are skipped, every other submission extends
    self.comments with its contribution, and a ClientException on one
    submission never stops the loop. -/
def collectComments (subs : List CSubmission) : List CEntry :=
  subs.foldl (fun acc s => if s.num_comments = 0 then acc else acc ++ submissionComments s) []

/-- What one submission adds to self.comments: nothing when its declared
    num_comments is zero, its contribution otherwise. -/
def contribOne (s : CSubmission) : List CEntry :=
  if s.num_comments = 0 then [] else submissionComments s

/-! ### publish_results -/

/-- Models str.lower on the raw_input answer. -/
def pyLower (s : String) : String := String.mk (s.toList.map Char.toLower)

/-- Observable outcome of publish_results: how many times reddit.submit was
    called, whether a submission was posted, whether the title and body were
    printed at the end, whether the abort message was printed, and whether
    the oversize check forced debug mode. -/
structure PublishOutcome where
  submitCalls : ℕ
  posted : Bool
  printedReport : Bool
  printedAborted : Bool
  forcedDebug : Bool
deriving DecidableEq

/-- The publication tail of publish_results, taking the assembled body, the
    debug argument, the raw_input answer and the outcome of the attempted
    reddit.submit call (true means it returned, false means it raised).
    When len(body) > MAX_BODY_SIZE, debug is forced on; outside debug mode a
    non-affirmative answer aborts, an affirmative one attempts the submit
    exactly once and returns on success; every path except a successful
    submit falls through to printing the title and body. -/
def publish_results (debug : Bool) (body : List Char) (answer : String)
    (submitOutcome : ℕ → Bool) : PublishOutcome :=
  let forced : Bool := decide (MAX_BODY_SIZE < body.length)
  let debug1 := debug || forced
  if debug1 = false then
    if pyLower answer ∉ (["y", "yes"] : List String) then
      { submitCalls := 0, posted := false, printedReport := true
        printedAborted := true, forcedDebug := forced }
    else if submitOutcome 0 = true then
      { submitCalls := 1, posted := true, printedReport := false
        printedAborted := false, forcedDebug := forced }
    else
      { submitCalls := 1, posted := false, printedReport := true
        printedAborted := false, forcedDebug := forced }
  else
    { submitCalls := 0, posted := false, printedReport := true
      printedAborted := false, forcedDebug := forced }

/-! ## Helper lemmas -/

theorem fSub_eq (a b : ℚ) : fSub a b = a - b := (Rat.sub_def' a b).symm

theorem ofInt_cast (i : ℤ) : Rat.ofInt i = (i : ℚ) := rfl

theorem natToRat_cast (n : ℕ) : natToRat n = (n : ℚ) := rfl

/-- The pre-scan state of fetchRecent in closed form. -/
theorem preScanState_min_date (st0 : SRState) (d : ℤ) (hd : d ≠ 0) :
    (preScanState st0 d).min_date = st0.max_date - ((DAYS_IN_SECONDS * d : ℤ) : ℚ) := by
  simp [preScanState, hd, fSub_eq, ofInt_cast]

/-- A foldl over the comment-collection step is the accumulator followed by
    the joined per-submission contributions. -/
theorem collect_foldl (l : List CSubmission) (a : List CEntry) :
    l.foldl (fun acc s => if s.num_comments = 0 then acc
      else acc ++ submissionComments s) a = a ++ (l.map contribOne).flatten := by
  induction l generalizing a with
  | nil => simp
  | cons s t ih =>
    by_cases h : s.num_comments = 0 <;>
      simp [h, ih, contribOne, List.append_assoc]

theorem collectComments_eq (l : List CSubmission) :
    collectComments l = (l.map contribOne).flatten := by
  simpa using collect_foldl l []

/-! ## Claim C9 -/

/-- Claim C9: for every assembled report body longer than MAX_BODY_SIZE
    characters, publish_results forces debug mode: it prints the title and
    the body and never calls reddit.submit, regardless of the debug argument
    passed by the caller. -/
theorem c9_oversized_body_forces_debug (debug : Bool) (body : List Char)
    (answer : String) (oracle : ℕ → Bool) (h : MAX_BODY_SIZE < body.length) :
    publish_results debug body answer oracle =
      { submitCalls := 0, posted := false, printedReport := true
        printedAborted := false, forcedDebug := true } := by
  unfold publish_results
  have hf : decide (MAX_BODY_SIZE < body.length) = true := decide_eq_true h
  simp [hf]

/-- Witness for C9 at a concrete 10001-character body with a live-publish
    request and an always-succeeding submit. -/
theorem c9_witness :
    MAX_BODY_SIZE < (List.replicate 10001 'a').length ∧
      publish_results false (List.replicate 10001 'a') "yes" (fun _ => true) =
        { submitCalls := 0, posted := false, printedReport := true
          printedAborted := false, forcedDebug := true } :=
  ⟨by rw [List.length_replicate]; decide,
   c9_oversized_body_forces_debug false _ "yes" _ (by rw [List.length_replicate]; decide)⟩

/-! ## Claim C8 -/

/-- Claim C8 counterexample: with a confirmed publish whose submit call
    raises on the first attempt while any further attempt would succeed,
    publish_results makes exactly one submit call, posts nothing, and prints
    the report: no retry of the post ever happens. -/
theorem c8_counterexample :
    publish_results false (String.toList "body") "yes" (fun i => decide (1 ≤ i)) =
      { submitCalls := 1, posted := false, printedReport := true
        printedAborted := false, forcedDebug := false } ∧
    (fun i => decide (1 ≤ i)) 1 = true := by
  exact ⟨by decide, by decide⟩

/-- Claim C8 amended: publish_results attempts the post at most once: on a
    transport failure it does not retry, and whenever nothing was posted it
    falls back to printing the title and body, so the report is not silently
    lost. -/
theorem c8_single_attempt_print_fallback (debug : Bool) (body : List Char)
    (answer : String) (oracle : ℕ → Bool) :
    (publish_results debug body answer oracle).submitCalls ≤ 1 ∧
      ((publish_results debug body answer oracle).posted = false →
        (publish_results debug body answer oracle).printedReport = true) := by
  unfold publish_results
  by_cases h1 : (debug || decide (MAX_BODY_SIZE < body.length)) = false <;>
    by_cases h2 : pyLower answer ∈ (["y", "yes"] : List String) <;>
      by_cases h3 : oracle 0 = true <;>
        simp [h1, h2, h3]

/-- Witness for C8 amended at a concrete always-failing submit. -/
theorem c8_witness :
    (publish_results false (String.toList "b") "y" (fun _ => false)).submitCalls ≤ 1 ∧
      (publish_results false (String.toList "b") "y" (fun _ => false)).printedReport = true :=
  ⟨(c8_single_attempt_print_fallback false (String.toList "b") "y" (fun _ => false)).1,
   (c8_single_attempt_print_fallback false (String.toList "b") "y" (fun _ => false)).2 (by decide)⟩

/-! ## Claim C10 -/

/-- Claim C10: when fetching the full flattened comment list of one
    submission signals ClientException, process_commenters degrades
    gracefully: that submission contributes exactly its locally available
    comments filtered to well-formed Comment instances (every placeholder
    discarded), and collection continues over the remaining submissions
    instead of aborting. -/
theorem c10_client_exception_degrades_gracefully (pre post : List CSubmission)
    (s : CSubmission) (herr : s.all_comments_flat = .error ()) :
    collectComments (pre ++ s :: post) =
      collectComments pre ++
        (if s.num_comments = 0 then [] else s.comments_flat.filter isComment) ++
        collectComments post ∧
    ∀ e ∈ s.comments_flat.filter isComment, isComment e = true := by
  constructor
  · have h1 : contribOne s =
        if s.num_comments = 0 then [] else s.comments_flat.filter isComment := by
      simp [contribOne, submissionComments, herr]
    simp [collectComments_eq, h1, List.append_assoc]
  · intro e he
    exact (List.mem_filter.mp he).2

/-- A submission with 500 declared replies whose full flat fetch raises,
    with one real comment and one placeholder available locally. -/
def c10s : CSubmission :=
  { num_comments := 500
    all_comments_flat := .error ()
    comments_flat :=
      [.comment { author := "a", ups := 1, downs := 0, permalink := "p" },
       .morePlaceholder] }

/-- A successfully fetched submission used after the failing one. -/
def c10t : CSubmission :=
  { num_comments := 1
    all_comments_flat := .ok [.comment { author := "b", ups := 2, downs := 1, permalink := "q" }]
    comments_flat := [] }

/-- Witness for C10: the failing submission contributes only its real local
    comment and the later submission is still processed. -/
theorem c10_witness :
    c10s.all_comments_flat = .error () ∧
      collectComments ([] ++ c10s :: [c10t]) =
        collectComments [] ++
          (if c10s.num_comments = 0 then [] else c10s.comments_flat.filter isComment) ++
          collectComments [c10t] ∧
      ∀ e ∈ c10s.comments_flat.filter isComment, isComment e = true :=
  ⟨rfl,
   (c10_client_exception_degrades_gracefully [] [c10t] c10s rfl).1,
   (c10_client_exception_degrades_gracefully [] [c10t] c10s rfl).2⟩

/-! ## Claim C7: ranking determinism -/

theorem filter_orderedInsert {α : Type} (r : α → α → Prop) [DecidableRel r]
    (p : α → Bool) (hp : ∀ a b, p a = true → p b = true → r a b)
    (x : α) (l : List α) :
    (l.orderedInsert r x).filter p =
      if p x = true then x :: l.filter p else l.filter p := by
  induction l with
  | nil =>
    by_cases hx : p x = true <;> simp [List.orderedInsert, List.filter_cons, hx]
  | cons y ys ih =>
    simp only [List.orderedInsert]
    by_cases hr : r x y
    · rw [if_pos hr]
      by_cases hx : p x = true <;> simp [List.filter_cons, hx]
    · rw [if_neg hr]
      by_cases hx : p x = true
      · have hy : ¬ p y = true := fun hyc => hr (hp x y hx hyc)
        simp [List.filter_cons, hy, ih, hx]
      · by_cases hy : p y = true <;> simp [List.filter_cons, hy, ih, hx]

theorem filter_insertionSort {α : Type} (r : α → α → Prop) [DecidableRel r]
    (p : α → Bool) (hp : ∀ a b, p a = true → p b = true → r a b) (l : List α) :
    (l.insertionSort r).filter p = l.filter p := by
  induction l with
  | nil => rfl
  | cons x xs ih =>
    simp only [List.insertionSort]
    rw [filter_orderedInsert r p hp, ih, List.filter_cons]

theorem subRel_total (a b : String × List Submission) : subRel a b ∨ subRel b a := by
  unfold subRel; omega

theorem subRel_trans (a b c : String × List Submission) :
    subRel a b → subRel b c → subRel a c := by
  unfold subRel; omega

theorem sorted_rankedSubmitters (items : List (String × List Submission)) :
    List.Sorted subRel (rankedSubmitters items) := by
  haveI : IsTotal _ subRel := ⟨subRel_total⟩
  haveI : IsTrans _ subRel := ⟨subRel_trans⟩
  exact List.sorted_insertionSort subRel items

theorem commRel_total (a b : String × List RComment) : commRel a b ∨ commRel b a := by
  unfold commRel; omega

theorem commRel_trans (a b c : String × List RComment) :
    commRel a b → commRel b c → commRel a c := by
  unfold commRel; omega

theorem sorted_rankedCommenters (items : List (String × List RComment)) :
    List.Sorted commRel (rankedCommenters items) := by
  haveI : IsTotal _ commRel := ⟨commRel_total⟩
  haveI : IsTrans _ commRel := ⟨commRel_trans⟩
  exact List.sorted_insertionSort commRel items

/-- A bare submission with a given author and score, for the ranking
    instances. -/
def c7sub (auth : String) (sc : ℤ) : Submission :=
  { created_utc := 1, author := auth, title := "t", selftext := []
    permalink := "p", url := "u", score := sc, ups := 0, downs := 0
    num_comments := 0 }

/-- Claim C7 counterexample: two authors with fully tied keys (equal total
    score 3, equal count 1), encountered with author a first. The dict may
    enumerate its two entries in either order; for the admissible
    enumeration that lists author b first, the stable sort keeps b before a,
    so the ranking differs from the first-encounter order: the output order
    of full ties is the unspecified dict enumeration order, not the
    original encounter order the claim asserts. -/
theorem c7_counterexample :
    process_submitters [c7sub "a" 5, c7sub "b" 5] =
      [("a", [c7sub "a" 5]), ("b", [c7sub "b" 5])] ∧
    List.Perm [("b", [c7sub "b" 5]), ("a", [c7sub "a" 5])]
      (process_submitters [c7sub "a" 5, c7sub "b" 5]) ∧
    subKey ("a", [c7sub "a" 5]) = subKey ("b", [c7sub "b" 5]) ∧
    rankedSubmitters [("b", [c7sub "b" 5]), ("a", [c7sub "a" 5])] =
      [("b", [c7sub "b" 5]), ("a", [c7sub "a" 5])] ∧
    rankedSubmitters [("b", [c7sub "b" 5]), ("a", [c7sub "a" 5])] ≠
      process_submitters [c7sub "a" 5, c7sub "b" 5] := by
  have hgroup : process_submitters [c7sub "a" 5, c7sub "b" 5] =
      [("a", [c7sub "a" 5]), ("b", [c7sub "b" 5])] := by decide
  refine ⟨hgroup, ?_, by decide, by decide, ?_⟩
  · rw [hgroup]
    exact List.Perm.swap ("a", [c7sub "a" 5]) ("b", [c7sub "b" 5]) []
  · rw [hgroup]
    decide

/-- Claim C7 amended: for every order in which the submitters or commenters
    mapping enumerates its entries, the rankings of top_submitters and
    top_commenters place an author with equal total score but more items or
    replies no lower, and authors whose composite sort key ties completely
    appear in the enumeration order, because the sort is stable: the
    subsequence of entries with any fixed key is exactly the corresponding
    subsequence of the enumeration. In Python 2 the dict enumeration order
    is an unspecified hash order, so full ties follow it rather than the
    original encounter order. -/
theorem c7_tie_order_follows_enumeration :
    (∀ (items : List (String × List Submission)) (i j : ℕ)
        (hij : i < j) (hj : j < (rankedSubmitters items).length),
        subScore ((rankedSubmitters items).get ⟨i, hij.trans hj⟩) =
          subScore ((rankedSubmitters items).get ⟨j, hj⟩) →
        ((rankedSubmitters items).get ⟨j, hj⟩).2.length ≤
          ((rankedSubmitters items).get ⟨i, hij.trans hj⟩).2.length) ∧
    (∀ (items : List (String × List Submission)) (k : ℤ × ℕ),
        (rankedSubmitters items).filter (fun e => decide (subKey e = k)) =
          items.filter (fun e => decide (subKey e = k))) ∧
    (∀ (items : List (String × List RComment)) (i j : ℕ)
        (hij : i < j) (hj : j < (rankedCommenters items).length),
        commScore ((rankedCommenters items).get ⟨i, hij.trans hj⟩) =
          commScore ((rankedCommenters items).get ⟨j, hj⟩) →
        ((rankedCommenters items).get ⟨j, hj⟩).2.length ≤
          ((rankedCommenters items).get ⟨i, hij.trans hj⟩).2.length) ∧
    (∀ (items : List (String × List RComment)) (k : ℤ × ℕ),
        (rankedCommenters items).filter (fun e => decide (commKey e = k)) =
          items.filter (fun e => decide (commKey e = k))) := by
  refine ⟨?_, ?_, ?_, ?_⟩
  · intro items i j hij hj heq
    have hs := sorted_rankedSubmitters items
    have hrel := List.pairwise_iff_get.mp hs ⟨i, hij.trans hj⟩ ⟨j, hj⟩ hij
    rcases hrel with hlt | ⟨_, hle⟩
    · have hlt2 : subScore ((rankedSubmitters items).get ⟨j, hj⟩) <
          subScore ((rankedSubmitters items).get ⟨i, hij.trans hj⟩) := hlt
      rw [heq] at hlt2
      exact absurd hlt2 (lt_irrefl _)
    · exact hle
  · intro items k
    refine filter_insertionSort subRel _ ?_ items
    intro a b ha hb
    have h1 : subKey a = k := of_decide_eq_true ha
    have h2 : subKey b = k := of_decide_eq_true hb
    have h3 : subKey a = subKey b := h1.trans h2.symm
    right
    exact ⟨congrArg Prod.fst h3, le_of_eq (congrArg Prod.snd h3).symm⟩
  · intro items i j hij hj heq
    have hs := sorted_rankedCommenters items
    have hrel := List.pairwise_iff_get.mp hs ⟨i, hij.trans hj⟩ ⟨j, hj⟩ hij
    rcases hrel with hlt | ⟨_, hle⟩
    · have hlt2 : commScore ((rankedCommenters items).get ⟨j, hj⟩) <
          commScore ((rankedCommenters items).get ⟨i, hij.trans hj⟩) := hlt
      rw [heq] at hlt2
      exact absurd hlt2 (lt_irrefl _)
    · exact hle
  · intro items k
    refine filter_insertionSort commRel _ ?_ items
    intro a b ha hb
    have h1 : commKey a = k := of_decide_eq_true ha
    have h2 : commKey b = k := of_decide_eq_true hb
    have h3 : commKey a = commKey b := h1.trans h2.symm
    right
    exact ⟨congrArg Prod.fst h3, le_of_eq (congrArg Prod.snd h3).symm⟩

/-- Submitter entries with equal total score 5 and counts 2 and 1. -/
def c7items : List (String × List Submission) :=
  [("a", [c7sub "x" 3, c7sub "x" 2]), ("b", [c7sub "x" 5])]

/-- Commenter entries with equal total net score 2 and both count 1. -/
def c7citems : List (String × List RComment) :=
  [("c", [{ author := "c", ups := 3, downs := 1, permalink := "p" }]),
   ("d", [{ author := "d", ups := 2, downs := 0, permalink := "q" }])]

/-- Witness for C7 amended: with equal scores the author with two
    submissions stays ahead of the one with one, and commenter entries with
    fully tied keys keep their enumeration order under the ranking. -/
theorem c7_witness :
    ((rankedSubmitters c7items).get ⟨1, by decide⟩).2.length ≤
      ((rankedSubmitters c7items).get ⟨0, by decide⟩).2.length ∧
    (rankedCommenters c7citems).filter (fun e => decide (commKey e = (2, 1))) =
      c7citems.filter (fun e => decide (commKey e = (2, 1))) :=
  ⟨c7_tie_order_follows_enumeration.1 c7items 0 1 (by decide) (by decide)
     (by decide),
   c7_tie_order_follows_enumeration.2.2.2 c7citems (2, 1)⟩

/-! ## The scan loop: step and loop invariants -/

theorem scanStep_cont (cfg : FetchCfg) (st : SRState) (s : Submission)
    (st1 : SRState) (h : scanStep cfg st s = .cont st1) :
    st1.max_date = st.max_date ∧ st.min_date ≤ st1.min_date ∧
    (st1.submissions = st.submissions ∨
      (st1.submissions = st.submissions ++ [s] ∧
       (cfg.since_last && isSelfReport cfg.user s) = false ∧
       st.min_date < s.created_utc ∧ s.created_utc ≤ st.max_date)) := by
  by_cases h1 : st.max_date < s.created_utc
  · have hs : scanStep cfg st s = .cont st := by simp [scanStep, h1]
    rw [hs] at h
    obtain rfl := StepResult.cont.inj h
    exact ⟨rfl, le_refl _, .inl rfl⟩
  · by_cases h2 : s.created_utc ≤ st.min_date
    · have hs : scanStep cfg st s = .stop := by simp [scanStep, h1, h2]
      rw [hs] at h
      cases h
    · by_cases h3 : (cfg.since_last && isSelfReport cfg.user s) = true
      · cases hpm : previousMax s.selftext with
        | none =>
          have hs : scanStep cfg st s = .fail .markerMissing := by
            simp [scanStep, h1, h2, h3, hpm]
          rw [hs] at h
          cases h
        | some m =>
          by_cases hps : st.prev_srs.isSome = true
          · have hs : scanStep cfg st s = .fail .assertFailed := by
              simp [scanStep, h1, h2, h3, hpm, hps]
            rw [hs] at h
            cases h
          · have hs : scanStep cfg st s = .cont
                { st with min_date := max st.min_date m
                          prev_srs := some s.permalink } := by
              simp [scanStep, h1, h2, h3, hpm, hps]
            rw [hs] at h
            obtain rfl := StepResult.cont.inj h
            exact ⟨rfl, le_max_left _ _, .inl rfl⟩
      · have hs : scanStep cfg st s = .cont
            { st with submissions := st.submissions ++ [s] } := by
          simp [scanStep, h1, h2, h3]
        rw [hs] at h
        obtain rfl := StepResult.cont.inj h
        exact ⟨rfl, le_refl _, .inr ⟨rfl, by simpa using h3,
          lt_of_not_le h2, le_of_not_lt h1⟩⟩

theorem scanLoop_ok (cfg : FetchCfg) (stream : List Submission) :
    ∀ (st st2 : SRState), scanLoop cfg st stream = .ok st2 →
      st2.max_date = st.max_date ∧ st.min_date ≤ st2.min_date ∧
      ∀ s ∈ st2.submissions,
        s ∈ st.submissions ∨
          ((cfg.since_last && isSelfReport cfg.user s) = false ∧
           st.min_date < s.created_utc ∧ s.created_utc ≤ st.max_date) := by
  induction stream with
  | nil =>
    intro st st2 h
    obtain rfl := Except.ok.inj h
    exact ⟨rfl, le_refl _, fun s hs => .inl hs⟩
  | cons s rest ih =>
    intro st st2 h
    unfold scanLoop at h
    revert h
    cases hstep : scanStep cfg st s with
    | cont st1 =>
      intro h
      obtain ⟨hmax1, hmin1, hsub1⟩ := scanStep_cont cfg st s st1 hstep
      obtain ⟨hmax, hmin, hmem⟩ := ih st1 st2 h
      refine ⟨hmax.trans hmax1, hmin1.trans hmin, ?_⟩
      intro x hx
      rcases hmem x hx with hx1 | ⟨hflag, hlo, hhi⟩
      · rcases hsub1 with he | ⟨he, hflag2, hlo2, hhi2⟩
        · rw [he] at hx1; exact .inl hx1
        · rw [he] at hx1
          rcases List.mem_append.mp hx1 with hin | hone
          · exact .inl hin
          · obtain rfl := List.mem_singleton.mp hone
            exact .inr ⟨hflag2, hlo2, hhi2⟩
      · exact .inr ⟨hflag, lt_of_le_of_lt hmin1 hlo, hhi.trans_eq hmax1⟩
    | stop =>
      intro h
      obtain rfl := Except.ok.inj h
      exact ⟨rfl, le_refl _, fun x hx => .inl hx⟩
    | fail e =>
      intro h
      cases h

theorem finishFetch_shape (st2 : SRState) (b : Bool) (st' : SRState)
    (h : finishFetch st2 = (b, st')) :
    (b = false ∧ st2.submissions = [] ∧ st' = st2) ∨
    (b = true ∧ st2.submissions ≠ [] ∧
      st' = { st2 with
        submissions := sortByCreated st2.submissions
        min_date := ((sortByCreated st2.submissions).head?.map
          Submission.created_utc).getD st2.min_date
        max_date := ((sortByCreated st2.submissions).getLast?.map
          Submission.created_utc).getD st2.max_date }) := by
  unfold finishFetch at h
  by_cases he : st2.submissions = []
  · rw [if_pos he] at h
    obtain ⟨h1, h2⟩ := Prod.mk.inj h
    exact .inl ⟨h1.symm, he, h2.symm⟩
  · rw [if_neg he] at h
    obtain ⟨h1, h2⟩ := Prod.mk.inj h
    exact .inr ⟨h1.symm, he, h2.symm⟩

theorem fetchRecent_ok (cfg : FetchCfg) (d : ℤ) (st0 : SRState)
    (stream : List Submission) (b : Bool) (st' : SRState)
    (h : fetchRecent cfg d st0 stream = .ok (b, st')) :
    ∃ st2, scanLoop cfg (preScanState st0 d) stream = .ok st2 ∧
      finishFetch st2 = (b, st') := by
  unfold fetchRecent at h
  revert h
  cases hsl : scanLoop cfg (preScanState st0 d) stream with
  | error e => intro h; cases h
  | ok st2 =>
    intro h
    exact ⟨st2, rfl, Except.ok.inj h⟩

/-! ## Sortedness facts for the created_utc sort -/

theorem sorted_sortByCreated (l : List Submission) :
    List.Sorted (fun a b : Submission => a.created_utc ≤ b.created_utc)
      (sortByCreated l) := by
  haveI : IsTotal Submission (fun a b => a.created_utc ≤ b.created_utc) :=
    ⟨fun a b => le_total _ _⟩
  haveI : IsTrans Submission (fun a b => a.created_utc ≤ b.created_utc) :=
    ⟨fun _ _ _ hab hbc => le_trans hab hbc⟩
  exact List.sorted_insertionSort _ l

theorem perm_sortByCreated (l : List Submission) : List.Perm (sortByCreated l) l :=
  List.perm_insertionSort _ l

theorem sorted_rel_getLast {α : Type} {r : α → α → Prop} (hrefl : ∀ a, r a a)
    (l : List α) (hs : List.Sorted r l) (hne : l ≠ []) :
    ∀ x ∈ l, r x (l.getLast hne) := by
  induction l with
  | nil => exact absurd rfl hne
  | cons a t ih =>
    intro x hx
    cases t with
    | nil =>
      obtain rfl : x = a := by simpa using hx
      simpa [List.getLast_singleton] using hrefl x
    | cons b t2 =>
      rw [List.getLast_cons (by simp : (b :: t2) ≠ [])]
      rcases List.mem_cons.mp hx with rfl | hxm
      · exact List.rel_of_sorted_cons hs _ (List.getLast_mem (by simp))
      · exact ih hs.of_cons (by simp) x hxm

theorem sorted_head_rel {α : Type} {r : α → α → Prop} (hrefl : ∀ a, r a a)
    (a : α) (t : List α) (hs : List.Sorted r (a :: t)) :
    ∀ x ∈ a :: t, r a x := by
  intro x hx
  rcases List.mem_cons.mp hx with rfl | hxm
  · exact hrefl x
  · exact List.rel_of_sorted_cons hs x hxm

/-! ## Claim C3 -/

/-- Claim C3: whenever fetch_recent_submissions returns True, the final
    min_date equals the least and the final max_date the greatest
    created_utc over the returned submissions, recomputed from the batch
    rather than taken from the pre-scan configured bounds. -/
theorem c3_window_from_batch (cfg : FetchCfg) (d : ℤ) (st0 : SRState)
    (stream : List Submission) (st' : SRState)
    (h : fetchRecent cfg d st0 stream = .ok (true, st')) :
    (∀ s ∈ st'.submissions,
        st'.min_date ≤ s.created_utc ∧ s.created_utc ≤ st'.max_date) ∧
    (∃ s ∈ st'.submissions, s.created_utc = st'.min_date) ∧
    (∃ s ∈ st'.submissions, s.created_utc = st'.max_date) := by
  obtain ⟨st2, hsl, hfin⟩ := fetchRecent_ok cfg d st0 stream true st' h
  rcases finishFetch_shape st2 true st' hfin with ⟨hb, _, _⟩ | ⟨_, hne, hst⟩
  · cases hb
  · have hperm := perm_sortByCreated st2.submissions
    have hlne : sortByCreated st2.submissions ≠ [] := by
      intro hnil
      rw [hnil] at hperm
      exact hne hperm.symm.eq_nil
    subst hst
    dsimp only
    cases hl : sortByCreated st2.submissions with
    | nil => exact absurd hl hlne
    | cons f t =>
      have hsorted := sorted_sortByCreated st2.submissions
      rw [hl] at hsorted
      have hne2 : (f :: t) ≠ [] := by simp
      rw [List.getLast?_eq_getLast (f :: t) hne2]
      simp only [List.head?_cons, Option.map_some', Option.getD_some]
      refine ⟨?_, ?_, ?_⟩
      · intro x hx
        exact ⟨sorted_head_rel
            (r := fun a b : Submission => a.created_utc ≤ b.created_utc)
            (fun a => le_refl a.created_utc) f t hsorted x hx,
          sorted_rel_getLast
            (r := fun a b : Submission => a.created_utc ≤ b.created_utc)
            (fun a => le_refl a.created_utc) (f :: t) hsorted hne2 x hx⟩
      · exact ⟨f, List.mem_cons_self f t, rfl⟩
      · exact ⟨(f :: t).getLast hne2, List.getLast_mem hne2, rfl⟩

/-- A submission builder for the concrete instances below. -/
def mkSub (c : ℚ) (auth ttl slf perma : String) : Submission :=
  { created_utc := c, author := auth, title := ttl
    selftext := String.toList slf, permalink := perma, url := "u"
    score := 3, ups := 4, downs := 1, num_comments := 2 }

/-- The reporting-bot configuration of the concrete instances. -/
def cfgBot : FetchCfg := { user := "bot", since_last := true }

/-- The final state of the two-submission run used as the C3 witness. -/
def c3final : SRState :=
  { min_date := 400000, max_date := 500000, prev_srs := none
    submissions := [mkSub 400000 "bob" "there" "y" "p2",
                    mkSub 500000 "alice" "hello" "x" "p1"] }

/-- Witness for C3 at a concrete run over two submissions. -/
theorem c3_witness :
    c3final.min_date ≤ (mkSub 500000 "alice" "hello" "x" "p1").created_utc ∧
      (mkSub 500000 "alice" "hello" "x" "p1").created_utc ≤ c3final.max_date :=
  (c3_window_from_batch cfgBot 0 (initState 864000)
      [mkSub 500000 "alice" "hello" "x" "p1", mkSub 400000 "bob" "there" "y" "p2"]
      c3final (by decide)).1
    (mkSub 500000 "alice" "hello" "x" "p1") (by decide)

/-! ## Claim C4 -/

/-- Claim C4: with a positive max_duration, every submission in the batch
    returned by fetch_recent_submissions lies strictly above
    max_date - max_duration * 86400 and at most max_date, where max_date is
    the pre-scan bound now - 3 * 86400 set by the constructor. -/
theorem c4_duration_bounds (cfg : FetchCfg) (d : ℤ) (now : ℚ)
    (stream : List Submission) (b : Bool) (st' : SRState) (hd : 0 < d)
    (h : fetchRecent cfg d (initState now) stream = .ok (b, st')) :
    ∀ s ∈ st'.submissions,
      now - 3 * 86400 - (d : ℚ) * 86400 < s.created_utc ∧
        s.created_utc ≤ now - 3 * 86400 := by
  obtain ⟨st2, hsl, hfin⟩ := fetchRecent_ok cfg d (initState now) stream b st' h
  obtain ⟨hmax2, hmin2, hmem⟩ := scanLoop_ok cfg stream _ st2 hsl
  have hdne : d ≠ 0 := ne_of_gt hd
  have h0 : (initState now).max_date = now - 3 * 86400 := by
    show fSub now (Rat.ofInt (DAYS_IN_SECONDS * 3)) = _
    rw [fSub_eq, ofInt_cast]
    norm_num [DAYS_IN_SECONDS]
  have hpre_max : (preScanState (initState now) d).max_date = now - 3 * 86400 := by
    by_cases hc : d ≠ 0 <;> simp [preScanState, hc, h0]
  have hpre_min : (preScanState (initState now) d).min_date =
      now - 3 * 86400 - (d : ℚ) * 86400 := by
    rw [preScanState_min_date _ _ hdne, h0]
    push_cast [DAYS_IN_SECONDS]
    ring
  have hpre_subs : (preScanState (initState now) d).submissions = [] := by
    by_cases hc : d ≠ 0 <;> simp [preScanState, hc, initState]
  intro s hs
  have hs2 : s ∈ st2.submissions := by
    rcases finishFetch_shape st2 b st' hfin with ⟨_, _, hst⟩ | ⟨_, _, hst⟩
    · rw [hst] at hs
      exact hs
    · rw [hst] at hs
      exact (perm_sortByCreated st2.submissions).mem_iff.mp hs
  rcases hmem s hs2 with hin0 | ⟨_, hlo, hhi⟩
  · rw [hpre_subs] at hin0
    cases hin0
  · rw [hpre_min] at hlo
    rw [hpre_max] at hhi
    exact ⟨hlo, hhi⟩

/-- The final state of the one-submission run used as the C4 witness. -/
def c4final : SRState :=
  { min_date := 900000, max_date := 900000, prev_srs := none
    submissions := [mkSub 900000 "carol" "title" "z" "p3"] }

/-- Witness for C4 at a concrete run with max_duration 1 day. -/
theorem c4_witness :
    (1209600 : ℚ) - 3 * 86400 - ((1 : ℤ) : ℚ) * 86400 <
        (mkSub 900000 "carol" "title" "z" "p3").created_utc ∧
      (mkSub 900000 "carol" "title" "z" "p3").created_utc ≤
        (1209600 : ℚ) - 3 * 86400 :=
  c4_duration_bounds cfgBot 1 1209600 [mkSub 900000 "carol" "title" "z" "p3"]
    true c4final (by decide) (by decide)
    (mkSub 900000 "carol" "title" "z" "p3") (by decide)

/-! ## Claim C2 -/

/-- Claim C2: with since_last set (its default), a submission authored by
    the reporting user whose title starts with the fixed tag is never kept
    in self.submissions, and scanning such a submission inside the window
    with its marker present and prev_srs unset raises min_date to
    max(old min_date, extracted marker) while keeping the batch unchanged
    and recording the permalink. -/
theorem c2_self_report_excluded (cfg : FetchCfg) (d : ℤ) (st0 : SRState)
    (stream : List Submission) (b : Bool) (st' : SRState)
    (hSL : cfg.since_last = true) (h0 : st0.submissions = [])
    (h : fetchRecent cfg d st0 stream = .ok (b, st')) :
    (∀ s ∈ st'.submissions, isSelfReport cfg.user s = false) ∧
    (∀ (st : SRState) (s : Submission) (m : ℚ),
        s.created_utc ≤ st.max_date → st.min_date < s.created_utc →
        isSelfReport cfg.user s = true → previousMax s.selftext = some m →
        st.prev_srs = none →
        scanStep cfg st s =
          .cont { st with min_date := max st.min_date m
                          prev_srs := some s.permalink }) := by
  constructor
  · obtain ⟨st2, hsl, hfin⟩ := fetchRecent_ok cfg d st0 stream b st' h
    obtain ⟨_, _, hmem⟩ := scanLoop_ok cfg stream _ st2 hsl
    have hpre_subs : (preScanState st0 d).submissions = [] := by
      by_cases hc : d ≠ 0 <;> simp [preScanState, hc, h0]
    intro s hs
    have hs2 : s ∈ st2.submissions := by
      rcases finishFetch_shape st2 b st' hfin with ⟨_, _, hst⟩ | ⟨_, _, hst⟩
      · rw [hst] at hs
        exact hs
      · rw [hst] at hs
        exact (perm_sortByCreated st2.submissions).mem_iff.mp hs
    rcases hmem s hs2 with hin0 | ⟨hflag, _, _⟩
    · rw [hpre_subs] at hin0
      cases hin0
    · rw [hSL] at hflag
      simpa using hflag
  · intro st s m hhi hlo hself hmark hnone
    have h1 : ¬ st.max_date < s.created_utc := not_lt.mpr hhi
    have h2 : ¬ s.created_utc ≤ st.min_date := not_le.mpr hlo
    simp [scanStep, h1, h2, hSL, hself, hmark, hnone]

/-- A self-report by the bot: tagged title, marker 100 in the body. -/
def c2selfPost : Submission :=
  mkSub 500000 "bot" "Subreddit Stats: old run" "text SRS Marker: 100" "pSelf"

/-- An ordinary submission by another user. -/
def c2normal : Submission := mkSub 400000 "dave" "a post" "body" "pNorm"

/-- The final state of the C2 run: only the ordinary submission is kept. -/
def c2final : SRState :=
  { min_date := 400000, max_date := 400000, prev_srs := some "pSelf"
    submissions := [c2normal] }

/-- A pre-step state with the self-report in window and prev_srs unset. -/
def c2stPre : SRState :=
  { min_date := 0, max_date := 604800, prev_srs := none, submissions := [] }

/-- Witness for C2: in a concrete run the self-report is dropped from the
    batch, and one scan step over it merges the marker into min_date. -/
theorem c2_witness :
    c2selfPost ∉ c2final.submissions ∧
      scanStep cfgBot c2stPre c2selfPost =
        .cont { c2stPre with min_date := max c2stPre.min_date 100
                             prev_srs := some c2selfPost.permalink } :=
  ⟨fun hmem => by
      have hfalse :=
        (c2_self_report_excluded cfgBot 0 (initState 864000)
          [c2selfPost, c2normal] true c2final rfl rfl (by decide)).1
          c2selfPost hmem
      exact absurd hfalse (by decide),
   (c2_self_report_excluded cfgBot 0 (initState 864000)
      [c2selfPost, c2normal] true c2final rfl rfl (by decide)).2
     c2stPre c2selfPost 100 (by decide) (by decide) (by decide) (by decide) rfl⟩

/-! ## Claim C1 -/

/-- Claim C1 counterexample: a prior marker of 999999 is supplied through
    prev_stat, now is 1259200 so the constructor bound is 1000000, and
    max_duration is 1 day; the claim predicts an effective pre-scan min_date
    of max(999999, 913600) = 999999, but the run proceeds with 913600: the
    duration bound overwrites the larger prior marker. -/
theorem c1_counterexample :
    (prev_stat (initState 1259200) "u"
        (mkSub 0 "bot" "Subreddit Stats: prev" "SRS Marker: 999999" "pp")).bind
      (fun st => fetchRecent cfgBot 1 st []) =
      .ok (false,
        { min_date := 913600, max_date := 1000000, prev_srs := some "u"
          submissions := [] }) ∧
    previousMax
        (mkSub 0 "bot" "Subreddit Stats: prev" "SRS Marker: 999999" "pp").selftext
      = some 999999 ∧
    (913600 : ℚ) ≠ max 999999 913600 := by
  exact ⟨by decide, by decide, by decide⟩

/-- Claim C1 amended: when max_duration is nonzero, the pre-scan min_date
    used by fetch_recent_submissions is exactly
    max_date - DAYS_IN_SECONDS * max_duration, discarding any prior marker
    installed by prev_stat: the pre-scan bound is the same as if prev_stat
    had never run. A prior marker survives only when max_duration is 0. -/
theorem c1_duration_overwrites_marker (st0 : SRState) (url : String)
    (fetched : Submission) (st1 : SRState) (d : ℤ)
    (hps : prev_stat st0 url fetched = .ok st1) (hd : d ≠ 0) :
    (preScanState st1 d).min_date =
        st0.max_date - ((DAYS_IN_SECONDS * d : ℤ) : ℚ) ∧
    (preScanState st1 d).min_date = (preScanState st0 d).min_date := by
  have hmax : st1.max_date = st0.max_date := by
    unfold prev_stat at hps
    revert hps
    cases hpm : previousMax fetched.selftext with
    | none =>
      intro hps
      cases hps
    | some m =>
      intro hps
      obtain rfl := Except.ok.inj hps
      rfl
  refine ⟨?_, ?_⟩
  · rw [preScanState_min_date st1 d hd, hmax]
  · rw [preScanState_min_date st1 d hd, preScanState_min_date st0 d hd, hmax]

/-- Witness for C1 amended at the concrete counterexample run. -/
theorem c1_witness :
    (preScanState
        { min_date := 999999, max_date := 1000000, prev_srs := some "u"
          submissions := [] } 1).min_date =
      (1000000 : ℚ) - ((DAYS_IN_SECONDS * 1 : ℤ) : ℚ) :=
  (c1_duration_overwrites_marker
    { min_date := 0, max_date := 1000000, prev_srs := none, submissions := [] }
    "u" (mkSub 0 "bot" "Subreddit Stats: prev" "SRS Marker: 999999" "pp")
    { min_date := 999999, max_date := 1000000, prev_srs := some "u"
      submissions := [] }
    1 (by decide) (by decide)).1

/-! ## Claim C6 -/

/-- Claim C6 counterexample: a scan that meets a second self-report marker
    candidate does not continue with the first link retained: it dies with
    the AssertionError from assert(self.prev_srs is None). -/
theorem c6_counterexample :
    fetchRecent cfgBot 0 (initState 864000)
      [mkSub 500000 "bot" "Subreddit Stats: one" "SRS Marker: 100" "pA",
       mkSub 400000 "bot" "Subreddit Stats: two" "SRS Marker: 50" "pB"]
      = .error .assertFailed := by
  decide

/-- Claim C6 amended: encountering a self-report marker candidate while
    prev_srs is already set triggers the assertion and aborts the scan as a
    hard failure; the scan does not continue past it. -/
theorem c6_second_candidate_asserts (cfg : FetchCfg) (st : SRState)
    (s : Submission) (m : ℚ) (hSL : cfg.since_last = true)
    (hhi : s.created_utc ≤ st.max_date) (hlo : st.min_date < s.created_utc)
    (hself : isSelfReport cfg.user s = true)
    (hm : previousMax s.selftext = some m)
    (hsome : st.prev_srs.isSome = true) :
    scanStep cfg st s = .fail .assertFailed := by
  have h1 : ¬ st.max_date < s.created_utc := not_lt.mpr hhi
  have h2 : ¬ s.created_utc ≤ st.min_date := not_le.mpr hlo
  simp [scanStep, h1, h2, hSL, hself, hm, hsome]

/-- Witness for C6 amended: one step over a second candidate fails. -/
theorem c6_witness :
    scanStep cfgBot
      { min_date := 100, max_date := 604800, prev_srs := some "pA"
        submissions := [] }
      (mkSub 400000 "bot" "Subreddit Stats: two" "SRS Marker: 50" "pB")
      = .fail .assertFailed :=
  c6_second_candidate_asserts cfgBot
    { min_date := 100, max_date := 604800, prev_srs := some "pA"
      submissions := [] }
    (mkSub 400000 "bot" "Subreddit Stats: two" "SRS Marker: 50" "pB")
    50 rfl (by decide) (by decide) (by decide) (by decide) rfl

/-! ## Claim C5: the marker round trip

The lemmas below establish what re.findall recovers from a body that ends
with the rendered footer: the last match is exactly the %d-rendered value. -/

theorem digitVal_digitChar (d : ℕ) (hd : d < 10) : digitVal (digitChar d) = d := by
  interval_cases d <;> rfl

theorem isDigit_digitChar (d : ℕ) (hd : d < 10) : (digitChar d).isDigit = true := by
  interval_cases d <;> decide

theorem digitsVal_append (a : List Char) (c : Char) :
    digitsVal (a ++ [c]) = 10 * digitsVal a + digitVal c := by
  simp [digitsVal, List.foldl_append]

theorem digitsVal_natDigitsAux (n : ℕ) :
    ∀ fuel, n ≤ fuel → digitsVal (natDigitsAux fuel n) = n := by
  induction n using Nat.strong_induction_on with
  | _ n ih =>
    intro fuel hfuel
    cases fuel with
    | zero =>
      obtain rfl : n = 0 := Nat.le_zero.mp hfuel
      rfl
    | succ f =>
      cases n with
      | zero => rfl
      | succ m =>
        show digitsVal (natDigitsAux f ((m + 1) / 10) ++ [digitChar ((m + 1) % 10)]) = m + 1
        rw [digitsVal_append]
        have h1 : (m + 1) / 10 < m + 1 := Nat.div_lt_self (Nat.succ_pos m) (by omega)
        rw [ih _ h1 f (by omega), digitVal_digitChar _ (Nat.mod_lt _ (by omega))]
        omega

theorem natDigitsAux_digits (fuel : ℕ) :
    ∀ (n : ℕ), ∀ c ∈ natDigitsAux fuel n, c.isDigit = true := by
  induction fuel with
  | zero =>
    intro n c hc
    simp [natDigitsAux] at hc
  | succ f ih =>
    intro n c hc
    cases n with
    | zero => simp [natDigitsAux] at hc
    | succ m =>
      rw [show natDigitsAux (f + 1) (m + 1) =
          natDigitsAux f ((m + 1) / 10) ++ [digitChar ((m + 1) % 10)] from rfl] at hc
      rcases List.mem_append.mp hc with h | h
      · exact ih _ c h
      · obtain rfl := List.mem_singleton.mp h
        exact isDigit_digitChar _ (Nat.mod_lt _ (by omega))

theorem digitsVal_natDigits (n : ℕ) : digitsVal (natDigits n) = n := by
  by_cases h : n = 0
  · subst h
    decide
  · rw [natDigits, if_neg h]
    exact digitsVal_natDigitsAux n n (le_refl n)

theorem natDigits_ne_nil (n : ℕ) : natDigits n ≠ [] := by
  by_cases h : n = 0
  · subst h
    decide
  · rw [natDigits, if_neg h]
    cases n with
    | zero => exact absurd rfl h
    | succ m =>
      rw [show natDigitsAux (m + 1) (m + 1) =
          natDigitsAux m ((m + 1) / 10) ++ [digitChar ((m + 1) % 10)] from rfl]
      simp

theorem natDigits_digits (n : ℕ) : ∀ c ∈ natDigits n, c.isDigit = true := by
  by_cases h : n = 0
  · subst h
    intro c hc
    obtain rfl : c = '0' := by simpa [natDigits] using hc
    decide
  · rw [natDigits, if_neg h]
    exact natDigitsAux_digits n n

theorem takeDigits_rest_length (l : List Char) :
    (takeDigits l).2.length ≤ l.length := by
  induction l with
  | nil => simp [takeDigits]
  | cons c cs ih =>
    by_cases hc : c.isDigit = true
    · simp only [takeDigits, hc, if_true]
      exact ih.trans (by simp)
    · simp [takeDigits, hc]

theorem takeDigits_append_nondigit (a b : List Char)
    (hb : ∀ c0, b.head? = some c0 → c0.isDigit = false) :
    takeDigits (a ++ b) = ((takeDigits a).1, (takeDigits a).2 ++ b) := by
  induction a with
  | nil =>
    cases b with
    | nil => rfl
    | cons c0 b1 => simp [takeDigits, hb c0 rfl]
  | cons x a1 ih =>
    by_cases hx : x.isDigit = true
    · simp [takeDigits, hx, ih]
    · have hx2 : x.isDigit = false := by revert hx; cases x.isDigit <;> simp
      simp [takeDigits, hx2]

theorem takeDigits_all (a : List Char) (ha : ∀ c ∈ a, c.isDigit = true) :
    takeDigits a = (a, []) := by
  induction a with
  | nil => rfl
  | cons x a1 ih =>
    have hx : x.isDigit = true := ha x (List.mem_cons_self _ _)
    have ih2 := ih (fun c hc => ha c (List.mem_cons_of_mem _ hc))
    simp [takeDigits, hx, ih2]

theorem stripLabel_append (p r : List Char) : stripLabel p (p ++ r) = some r := by
  induction p with
  | nil => rfl
  | cons c ps ih => simp [stripLabel, ih]

theorem stripLabel_eq_some (p : List Char) :
    ∀ (s r : List Char), stripLabel p s = some r → s = p ++ r := by
  induction p with
  | nil =>
    intro s r h
    obtain rfl := Option.some.inj h
    rfl
  | cons c ps ih =>
    intro s r h
    cases s with
    | nil => cases h
    | cons x xs =>
      by_cases hx : x = c
      · subst hx
        rw [show stripLabel (x :: ps) (x :: xs) = stripLabel ps xs from by
          simp [stripLabel]] at h
        rw [List.cons_append, ih xs r h]
      · simp [stripLabel, hx] at h

theorem markerLabel_no_border :
    ∀ k, k < markerLabel.length → 0 < k →
      markerLabel.drop k ≠ markerLabel.take (markerLabel.length - k) := by
  decide

theorem findallAux_nil (fuel : ℕ) : findallAux fuel [] = [] := by
  cases fuel <;> rfl

theorem findallAux_cons_nomatch (fuel : ℕ) (c : Char) (cs : List Char)
    (h : stripLabel markerLabel (c :: cs) = none) :
    findallAux (fuel + 1) (c :: cs) = findallAux fuel cs := by
  simp [findallAux, h]

theorem findallAux_cons_nodigit (fuel : ℕ) (c : Char) (cs rest r2 : List Char)
    (h : stripLabel markerLabel (c :: cs) = some rest)
    (h2 : takeDigits rest = ([], r2)) :
    findallAux (fuel + 1) (c :: cs) = findallAux fuel cs := by
  simp [findallAux, h, h2]

theorem findallAux_cons_match (fuel : ℕ) (c : Char) (cs rest : List Char)
    (d : Char) (ds r2 : List Char)
    (h : stripLabel markerLabel (c :: cs) = some rest)
    (h2 : takeDigits rest = (d :: ds, r2)) :
    findallAux (fuel + 1) (c :: cs) = digitsVal (d :: ds) :: findallAux fuel r2 := by
  simp [findallAux, h, h2]

theorem getLast?_cons_of_some {α : Type} (v : α) (l : List α) (n : α)
    (h : l.getLast? = some n) : (v :: l).getLast? = some n := by
  cases l with
  | nil => cases h
  | cons a t =>
    rw [List.getLast?_cons_cons]
    exact h

theorem findallAux_label_digits (n fuel : ℕ)
    (hfuel : (markerLabel ++ natDigits n).length ≤ fuel) :
    findallAux fuel (markerLabel ++ natDigits n) = [n] := by
  cases fuel with
  | zero =>
    exfalso
    have h0 : 0 < (markerLabel ++ natDigits n).length := by simp [markerLabel]
    omega
  | succ f =>
    obtain ⟨d, ds, hD⟩ := List.exists_cons_of_ne_nil (natDigits_ne_nil n)
    have hform : markerLabel ++ natDigits n =
        'S' :: (String.toList "RS Marker: " ++ natDigits n) := rfl
    have hstrip : stripLabel markerLabel
        ('S' :: (String.toList "RS Marker: " ++ natDigits n)) = some (natDigits n) := by
      rw [← hform]
      exact stripLabel_append markerLabel (natDigits n)
    have htake : takeDigits (natDigits n) = (d :: ds, []) := by
      rw [← hD]
      exact takeDigits_all (natDigits n) (natDigits_digits n)
    rw [hform, findallAux_cons_match f 'S' _ (natDigits n) d ds [] hstrip htake,
      findallAux_nil, ← hD, digitsVal_natDigits]

theorem findallAux_splice (n : ℕ) :
    ∀ (N : ℕ) (s : List Char), s.length ≤ N → ∀ fuel,
      (s ++ markerLabel ++ natDigits n).length ≤ fuel →
      (findallAux fuel (s ++ markerLabel ++ natDigits n)).getLast? = some n := by
  intro N
  induction N with
  | zero =>
    intro s hs fuel hfuel
    obtain rfl : s = [] := List.length_eq_zero.mp (Nat.le_zero.mp hs)
    rw [List.nil_append] at hfuel ⊢
    rw [findallAux_label_digits n fuel hfuel]
    rfl
  | succ N ih =>
    intro s hs fuel hfuel
    cases s with
    | nil =>
      rw [List.nil_append] at hfuel ⊢
      rw [findallAux_label_digits n fuel hfuel]
      rfl
    | cons c s1 =>
      cases fuel with
      | zero =>
        exfalso
        simp at hfuel
      | succ f =>
        have hs1 : s1.length ≤ N := by simpa using hs
        have hL : markerLabel.length = 12 := rfl
        simp only [List.length_append, List.length_cons] at hfuel
        have hassoc : (c :: s1) ++ markerLabel ++ natDigits n =
            c :: (s1 ++ markerLabel ++ natDigits n) := by simp
        rw [hassoc]
        cases hstrip : stripLabel markerLabel
            (c :: (s1 ++ markerLabel ++ natDigits n)) with
        | none =>
          rw [findallAux_cons_nomatch f _ _ hstrip]
          refine ih s1 hs1 f ?_
          simp only [List.length_append]
          omega
        | some rest =>
          have heq : c :: (s1 ++ markerLabel ++ natDigits n) = markerLabel ++ rest :=
            stripLabel_eq_some markerLabel _ rest hstrip
          have heq2 : (c :: s1) ++ (markerLabel ++ natDigits n) = markerLabel ++ rest := by
            simpa [List.append_assoc] using heq
          by_cases hk : (c :: s1).length < markerLabel.length
          · exfalso
            have htk := congrArg (List.take markerLabel.length) heq2
            rw [List.take_append_eq_append_take,
              List.take_of_length_le (le_of_lt hk),
              List.take_append_of_le_length
                (by omega : markerLabel.length - (c :: s1).length ≤ markerLabel.length),
              List.take_append_of_le_length (le_refl markerLabel.length),
              List.take_length] at htk
            have hdrop := congrArg (List.drop (c :: s1).length) htk
            rw [List.drop_left] at hdrop
            exact markerLabel_no_border (c :: s1).length hk (by simp) hdrop.symm
          · push_neg at hk
            have hdropeq := congrArg (List.drop markerLabel.length) heq2
            rw [List.drop_append_eq_append_drop,
              (by omega : markerLabel.length - (c :: s1).length = 0),
              List.drop_zero, List.drop_left] at hdropeq
            have hhead : ∀ c0, (markerLabel ++ natDigits n).head? = some c0 →
                c0.isDigit = false := by
              intro c0 hc0
              obtain rfl : 'S' = c0 := Option.some.inj hc0
              decide
            have htdr : takeDigits rest =
                ((takeDigits ((c :: s1).drop markerLabel.length)).1,
                 (takeDigits ((c :: s1).drop markerLabel.length)).2 ++
                   (markerLabel ++ natDigits n)) := by
              rw [← hdropeq]
              exact takeDigits_append_nondigit _ _ hhead
            have hs2len : ((c :: s1).drop markerLabel.length).length =
                s1.length + 1 - markerLabel.length := by
              rw [List.length_drop, List.length_cons]
            have hralen := takeDigits_rest_length ((c :: s1).drop markerLabel.length)
            cases hda : (takeDigits ((c :: s1).drop markerLabel.length)).1 with
            | nil =>
              rw [findallAux_cons_nodigit f _ _ rest _ hstrip (by rw [htdr, hda])]
              refine ih s1 hs1 f ?_
              simp only [List.length_append]
              omega
            | cons dd dds =>
              rw [findallAux_cons_match f _ _ rest dd dds _ hstrip (by rw [htdr, hda])]
              refine getLast?_cons_of_some _ _ _ ?_
              have hgoal := ih (takeDigits ((c :: s1).drop markerLabel.length)).2
                (by omega) f
                (by
                  simp only [List.length_append]
                  omega)
              rw [List.append_assoc] at hgoal
              exact hgoal

/-- Claim C5 counterexample: a run whose max_date is the fractional
    timestamp 1700000000.5 publishes a footer whose marker reads back as
    1700000000.0, which differs from max_date: the %d conversion truncates
    the float, so the round trip is not exact. -/
theorem c5_counterexample :
    previousMax (renderFooter [] (Rat.divInt 3400000001 2)) = some 1700000000 ∧
    (1700000000 : ℚ) ≠ Rat.divInt 3400000001 2 := by
  exact ⟨by decide, by decide⟩

/-- Claim C5 amended: for every run with nonnegative max_date, the marker
    recovered by _previous_max from any published body ending in the footer
    (arbitrary sections before it, arbitrary previous-stat link text inside
    it) equals the integer truncation of max_date embedded by the %d
    conversion, an exact round trip only when max_date is integral. -/
theorem c5_marker_roundtrip_truncates (pre prev : List Char) (q : ℚ)
    (hq : 0 ≤ q) :
    previousMax (pre ++ renderFooter prev q) = some ((⌊q⌋ : ℤ) : ℚ) := by
  have hfloor0 : (0 : ℤ) ≤ ⌊q⌋ := Int.floor_nonneg.mpr hq
  have htr : pyTrunc q = ⌊q⌋ := by rw [pyTrunc, if_pos hq]
  have hfmt : pyFormatD q = natDigits (pyTrunc q).toNat := by
    rw [pyFormatD, if_neg]
    rw [htr]
    omega
  have hform : pre ++ renderFooter prev q =
      (pre ++ footerGenerated ++ prev) ++ markerLabel ++
        natDigits (pyTrunc q).toNat := by
    simp [renderFooter, hfmt, List.append_assoc]
  rw [hform]
  show ((findallAux _ _).getLast?).map natToRat = _
  rw [findallAux_splice (pyTrunc q).toNat (pre ++ footerGenerated ++ prev).length
    (pre ++ footerGenerated ++ prev) (le_refl _) _ (le_refl _)]
  rw [Option.map_some']
  rw [natToRat_cast, htr]
  exact congrArg some (by exact_mod_cast congrArg (Int.cast (R := ℚ)) (Int.toNat_of_nonneg hfloor0))

/-- Witness for C5 amended at the fractional timestamp 1700000000.5. -/
theorem c5_witness :
    (0 : ℚ) ≤ Rat.divInt 3400000001 2 ∧
      previousMax ([] ++ renderFooter [] (Rat.divInt 3400000001 2)) =
        some ((⌊Rat.divInt 3400000001 2⌋ : ℤ) : ℚ) :=
  ⟨by decide, c5_marker_roundtrip_truncates [] [] (Rat.divInt 3400000001 2) (by decide)⟩

end SubredditStats